import Mathlib

/-!

Verification development for the PrairieView loader
(`element_interface/prairie_view_loader.py`).

The Python source is shallowly embedded below: each definition mirrors one
piece of the source, with the source line numbers recorded in its doc
comment.  Machine integers are modelled as `Nat`/`Int`; fallible code
returns `Except`/`Option`; the stateful streaming loops are modelled as
explicit recursion over the list of source pages.

-/

/-- Normalized record of the metadata fields used by the loader's
page-addressing code.  Mirrors the dictionary built by
`_extract_prairieview_metadata` (lines 355-381) after the `meta` property's
frame-count adjustment: `num_frames` here is the adjusted, timepoint-level
count; `channels` and `plane_indices` are the `list(set(...))` values. -/
structure ScanMeta where
  num_channels : Nat
  num_planes : Nat
  num_frames : Nat
  channels : List Int
  plane_indices : List Int
  is_multipage : Bool
  deriving Repr, DecidableEq

/-- Well-formedness facts guaranteed by construction in
`_extract_prairieview_metadata`: `n_channels = len(channels)` with
`channels = set(channel_list)` (lines 231-232), and
`n_depths = len(plane_indices)` with `plane_indices` a set
(lines 295, 308-309); converting a Python set to a list yields distinct
elements. -/
def ScanMeta.WF (m : ScanMeta) : Prop :=
  m.num_channels = m.channels.length ∧
    m.num_planes = m.plane_indices.length ∧
    m.channels.Nodup ∧ m.plane_indices.Nodup

instance (m : ScanMeta) : Decidable m.WF := by
  unfold ScanMeta.WF; infer_instance

/-- Embeds the frame-count adjustment in the `meta` property (line 45):
`num_frames = int(self._meta.pop("num_frames") / self._meta["num_planes"])`.
Python raises `ZeroDivisionError` when `num_planes` is zero and otherwise
truncates the ratio; no divisibility check is performed. -/
def metaAdjustNumFrames (rawNumFrames numPlanes : Nat) : Except String Nat :=
  if numPlanes = 0 then .error "ZeroDivisionError"
  else .ok (rawNumFrames / numPlanes)

/-- Embeds the page-index computation of `write_single_bigtiff`
(lines 135-141): `slice_step = num_channels`,
`frame_step = num_channels * num_planes`,
`slice_idx = plane_indices.index(plane_idx)`,
`channel_idx = channels.index(channel)`, and
`page_indices = [frame_idx * frame_step + slice_idx * slice_step +
channel_idx for frame_idx in range(num_frames)]`. -/
def pageIndices (m : ScanMeta) (plane_idx channel : Int) : List Nat :=
  let slice_step := m.num_channels
  let frame_step := m.num_channels * m.num_planes
  let slice_idx := m.plane_indices.indexOf plane_idx
  let channel_idx := m.channels.indexOf channel
  (List.range m.num_frames).map
    (fun frame_idx => frame_idx * frame_step + slice_idx * slice_step + channel_idx)

/-- Total page count of the acquisition: one page per
(channel, plane, timepoint) combination (spec section 3).  The spec's
scenario — 2 channels, 3 planes, 10 timepoints, "60 pages total" — fixes
this reading. -/
def numPages (m : ScanMeta) : Nat :=
  m.num_frames * m.num_planes * m.num_channels

/-- Record of one output-file write event of the multi-page branch of
`write_single_bigtiff`: the number of source files consumed so far at the
moment of the write, and the numeric suffix of the output file written. -/
structure WriteEvent where
  filesConsumed : Nat
  outputIndex : Nat
  deriving Repr, DecidableEq

/-- Embeds the multi-page branch of `write_single_bigtiff` (lines 147-176).
The loop iterates over the source files; for each one it reads the needed
pages into `combined_data` and advances `start_page`, and then — the write
block at lines 166-176 is indented inside the `for input_file in tiff_names`
loop — writes the buffer to
`f"{output_tiff_stem}_{len(output_tiff_list):04}.tif"` and appends that path
to `output_tiff_list`.  Given the page counts of the source files in order,
this function returns the trace of output-file write events performed. -/
def multipageWritesAux : List Nat → Nat → Nat → List WriteEvent
  | [], _, _ => []
  | _ :: rest, consumed, outs =>
      ⟨consumed + 1, outs⟩ :: multipageWritesAux rest (consumed + 1) (outs + 1)

/-- Trace of output writes of the multi-page branch, starting from zero
files consumed and an empty `output_tiff_list`. -/
def multipageWrites (pageCounts : List Nat) : List WriteEvent :=
  multipageWritesAux pageCounts 0 0

/-- Result shape of `write_single_bigtiff`: a lone path or a list of
paths. -/
inductive TiffResult where
  | single : String → TiffResult
  | multiple : List String → TiffResult
  deriving Repr, DecidableEq

/-- Embeds the early-return expression on line 121:
`output_tiff_list[0] if gb_per_file is None else output_tiff_list`.
The guarding branch ensures `existing` is nonempty, so `headD ""` stands
for the Python indexing `existing[0]`.  The threshold is modelled in bytes
as an `Option Nat`; only `none` versus `some` matters here (`is None`). -/
def earlyReturnResult (existing : List String) (gb_per_file : Option Nat) : TiffResult :=
  match gb_per_file with
  | none => .single (existing.headD "")
  | some _ => .multiple existing

/-- Embeds the final return expression on line 211:
`output_tiff_list[0] if len(output_tiff_list) == 1 else output_tiff_list`. -/
def finalizeResult : List String → TiffResult
  | [f] => .single f
  | fs => .multiple fs

/-- Action taken by the head of `write_single_bigtiff` on the pre-existing
outputs: either return them unchanged, or unlink them and fall through to
regeneration. -/
inductive PrologueAction where
  | returnExisting : TiffResult → PrologueAction
  | deleteThenRegenerate : List String → PrologueAction
  deriving Repr, DecidableEq

/-- Embeds lines 118-126 of `write_single_bigtiff`: `existing` is the glob
result for `{output_tiff_stem}*.tif`; `if len(output_tiff_list) and not
overwrite: return ...` performs no write and no deletion; otherwise every
matched file is unlinked (`[f.unlink() for f in output_tiff_list]`) before
regeneration. -/
def bigtiffPrologue (existing : List String) (overwrite : Bool)
    (gb_per_file : Option Nat) : PrologueAction :=
  if existing.length ≠ 0 ∧ overwrite = false then
    .returnExisting (earlyReturnResult existing gb_per_file)
  else
    .deleteThenRegenerate existing

/-- Failure modes of the plane/channel selection in
`get_prairieview_filenames`: the two `ValueError`s for an omitted parameter
with several candidates, and the two `AssertionError`s for a supplied value
absent from the metadata. -/
inductive SelError where
  | ambiguousPlane
  | invalidPlane
  | ambiguousChannel
  | invalidChannel
  deriving Repr, DecidableEq

/-- Embeds lines 63-73 of `get_prairieview_filenames`: if `plane_idx is
None`, raise when `num_planes > 1`, else take `plane_indices[0]` (modelled
as `headD 0`); if supplied, assert membership in `plane_indices`. -/
def resolvePlane (m : ScanMeta) (plane_idx : Option Int) : Except SelError Int :=
  match plane_idx with
  | none =>
      if 1 < m.num_planes then .error .ambiguousPlane
      else .ok (m.plane_indices.headD 0)
  | some p => if p ∈ m.plane_indices then .ok p else .error .invalidPlane

/-- Embeds lines 75-85 of `get_prairieview_filenames`: the channel analogue
of `resolvePlane`. -/
def resolveChannel (m : ScanMeta) (channel : Option Int) : Except SelError Int :=
  match channel with
  | none =>
      if 1 < m.num_channels then .error .ambiguousChannel
      else .ok (m.channels.headD 0)
  | some c => if c ∈ m.channels then .ok c else .error .invalidChannel

/-- Sequential composition of the two selection blocks, in source order
(plane first, lines 63-73, then channel, lines 75-85). -/
def resolveSelection (m : ScanMeta) (plane_idx channel : Option Int) :
    Except SelError (Int × Int) := do
  let p ← resolvePlane m plane_idx
  let c ← resolveChannel m channel
  return (p, c)

/-- Embeds line 96 of `get_prairieview_filenames`:
`np.unique([f.attrib["filename"] for f in frames]).tolist()` —
`numpy.unique` returns the distinct values in ascending sorted order.
Filenames are Python strings compared lexicographically; they are modelled
as an arbitrary linearly ordered type, and the sort as insertion sort over
that order. -/
def npUnique {α : Type} [LinearOrder α] (names : List α) : List α :=
  (List.insertionSort (· ≤ ·) names).dedup

/-- Modelled from the spec's words for comparison ("deduplicated file
names ..., preserving first-seen order"): drop every occurrence of a name
after its first. -/
def firstSeenDedupAux {α : Type} [DecidableEq α] (seen : List α) :
    List α → List α
  | [] => []
  | x :: xs =>
      if x ∈ seen then firstSeenDedupAux seen xs
      else x :: firstSeenDedupAux (x :: seen) xs

/-- Deduplication preserving first-seen order (the spec's stated behavior,
not the source's). -/
def firstSeenDedup {α : Type} [DecidableEq α] (names : List α) : List α :=
  firstSeenDedupAux [] names

/-- Embeds the split condition on line 207:
`if gb_per_file and output_tiff_fullpath.stat().st_size >= gb_per_file *
1024 ** 3`.  The threshold is modelled in bytes; Python's truthiness makes
a zero threshold behave like `None`. -/
def gbGuard (gb_per_file : Option Nat) (size : Nat) : Bool :=
  match gb_per_file with
  | none => false
  | some t => decide (t ≠ 0) && decide (t ≤ size)

/-- Embeds the two nested `while` loops of the legacy single-page-per-file
branch of `write_single_bigtiff` (lines 178-209).  `acc` is the list of
page sizes already written to the currently open output file; each step
pops the next source file (one page), writes it, and then checks the split
condition: on a split with source files remaining, the current output is
closed and a fresh one opened; when the sources run out the current output
is closed and the outer loop exits.  The result is the list of output
files, each as its list of page sizes. -/
def legacyLoop (gb_per_file : Option Nat) (acc : List Nat) :
    List Nat → List (List Nat)
  | [] => [acc]
  | p :: rest =>
      let acc' := acc ++ [p]
      if gbGuard gb_per_file (acc'.sum) then
        if rest.isEmpty then [acc'] else acc' :: legacyLoop gb_per_file [] rest
      else legacyLoop gb_per_file acc' rest

/-- Outputs of the legacy branch for a given list of source page sizes: the
outer `while len(tiff_names)` loop runs only when sources remain, so an
empty source list yields no output file. -/
def legacySplit (gb_per_file : Option Nat) (pages : List Nat) :
    List (List Nat) :=
  match pages with
  | [] => []
  | p :: rest => legacyLoop gb_per_file [] (p :: rest)

/-- Embeds the variation test on lines 333-336 of
`_extract_prairieview_metadata`:
`not all(z == z_controller[0] for z in z_controller)` — true exactly when
some recorded value differs from the first one (false for an empty list,
as Python's `all` of an empty generator is true).  Z positions are floats
in the source, modelled as `Int`; only equality is used. -/
def controllerVaries (z_controller : List Int) : Bool :=
  match z_controller with
  | [] => false
  | z0 :: rest => rest.any (fun z => decide (z ≠ z0))

/-- Embeds lines 318-341 of `_extract_prairieview_metadata`: given the
per-controller lists of Z values (`z_repeats`), compute
`controller_assert = [not all(...) for z_controller in z_repeats]`, assert
`sum(controller_assert) == 1`, and select
`z_repeats[controller_assert.index(True)]`. -/
def selectZController (z_repeats : List (List Int)) :
    Except String (List Int) :=
  let controller_assert := z_repeats.map controllerVaries
  if controller_assert.count true = 1 then
    .ok (z_repeats.getD (controller_assert.indexOf true) [])
  else
    .error "Multiple controllers changing z depth is not supported"

/-- Abstraction of one candidate XML file in the target directory, as seen
by `PrairieViewMeta.__init__` (lines 24-34): `seq` is `none` when
`xml_root.find(".//Sequence")` returns no element, and `some k` when it
returns an element with `k` children.  Python's element truthiness
(`if xml_root.find(".//Sequence"):`) tests the child count, not mere
presence. -/
structure XmlDoc where
  seq : Option Nat
  deriving Repr, DecidableEq

/-- Truthiness of the found `Sequence` element: an element is truthy in
`xml.etree.ElementTree` exactly when it has at least one child. -/
def seqTruthy (d : XmlDoc) : Bool :=
  match d.seq with
  | none => false
  | some k => decide (0 < k)

/-- Embeds the constructor loop of `PrairieViewMeta.__init__` (lines
24-34): scan the directory's XML files in order and bind to the first one
whose `.//Sequence` lookup is truthy; `none` models falling through to the
`FileNotFoundError`. -/
def findMetaXml (files : List XmlDoc) : Option XmlDoc :=
  files.find? seqTruthy

/-- Concrete metadata instance for evaluation: 2 channels, 3 planes, 10
timepoints — the multi-page scenario of spec section 8. -/
def scenarioMeta : ScanMeta :=
  { num_channels := 2, num_planes := 3, num_frames := 10,
    channels := [0, 1], plane_indices := [0, 1, 2], is_multipage := true }

/-- Concrete single-plane, single-channel metadata instance for
evaluation. -/
def soloMeta : ScanMeta :=
  { num_channels := 1, num_planes := 1, num_frames := 5,
    channels := [2], plane_indices := [0], is_multipage := false }

/- ------------------------------------------------------------------ -/
/- Helper lemmas shared by the claim theorems.                         -/
/- ------------------------------------------------------------------ -/

/-- Sum of a list after dropping its last element is at most the full
sum. -/
theorem dropLast_sum_le (l : List Nat) : l.dropLast.sum ≤ l.sum := by
  induction l with
  | nil => simp
  | cons a t ih =>
    cases t with
    | nil => simp
    | cons b t' => simp only [List.dropLast_cons₂, List.sum_cons] at *; omega

/-- Output of the legacy inner loop is never the empty list of files. -/
theorem legacyLoop_ne_nil (gb : Option Nat) (acc l : List Nat) :
    legacyLoop gb acc l ≠ [] := by
  induction l generalizing acc with
  | nil => simp [legacyLoop]
  | cons p rest ih =>
    simp only [legacyLoop]
    split
    · split <;> simp
    · exact ih (acc ++ [p])

/-- Concatenating the output files of the legacy inner loop recovers the
already-written pages followed by the remaining source pages. -/
theorem legacyLoop_flatten (gb : Option Nat) (acc l : List Nat) :
    (legacyLoop gb acc l).flatten = acc ++ l := by
  induction l generalizing acc with
  | nil => simp [legacyLoop]
  | cons p rest ih =>
    simp only [legacyLoop]
    split
    · rename_i hguard
      rcases hrest : rest.isEmpty with hfalse | htrue
      · simp [hrest, ih]
      · have : rest = [] := List.isEmpty_iff.mp hrest
        subst this
        simp
    · simpa using ih (acc ++ [p])

/-- Every output file produced by the legacy inner loop is nonempty,
provided the loop is not entered with both an empty current file and no
remaining sources. -/
theorem legacyLoop_mem_ne_nil (gb : Option Nat) (acc l : List Nat)
    (hstart : acc = [] → l ≠ []) :
    ∀ c ∈ legacyLoop gb acc l, c ≠ [] := by
  induction l generalizing acc with
  | nil =>
    intro c hc
    simp only [legacyLoop, List.mem_singleton] at hc
    intro hnil
    exact hstart (hc ▸ hnil) rfl
  | cons p rest ih =>
    intro c hc
    simp only [legacyLoop] at hc
    split at hc
    · split at hc
      · simp only [List.mem_singleton] at hc
        subst hc; simp
      · rename_i hne
        rcases List.mem_cons.mp hc with h | h
        · subst h; simp
        · exact ih [] (fun _ => List.isEmpty_iff.not.mp (by simpa using hne)) c h
    · exact ih (acc ++ [p]) (by simp) c hc

/-- Check-after-write invariant of the legacy loop: in every output file,
the pages before the last one sum to less than the threshold (the split
test runs only after a page is written, so the file accepted that last
page while still under the threshold). -/
theorem legacyLoop_dropLast_sum (t : Nat) (acc l : List Nat)
    (hacc : acc.sum < t) :
    ∀ c ∈ legacyLoop (some t) acc l, c.dropLast.sum < t := by
  induction l generalizing acc with
  | nil =>
    intro c hc
    simp only [legacyLoop, List.mem_singleton] at hc
    subst hc
    exact lt_of_le_of_lt (dropLast_sum_le _) hacc
  | cons p rest ih =>
    intro c hc
    simp only [legacyLoop] at hc
    split at hc
    · split at hc
      · simp only [List.mem_singleton] at hc
        subst hc
        simpa [List.dropLast_concat] using hacc
      · rcases List.mem_cons.mp hc with h | h
        · subst h
          simpa [List.dropLast_concat] using hacc
        · exact ih [] (by simp; omega) c h
    · rename_i hguard
      have hsum : (acc ++ [p]).sum < t := by
        simp only [gbGuard, Bool.and_eq_true, decide_eq_true_eq] at hguard
        omega
      exact ih (acc ++ [p]) hsum c hc

/-- Every output file of the legacy loop other than the final one was
closed because its size reached the threshold. -/
theorem legacyLoop_closed_ge (t : Nat) (acc l : List Nat) :
    ∀ c ∈ (legacyLoop (some t) acc l).dropLast, t ≤ c.sum := by
  induction l generalizing acc with
  | nil => intro c hc; simp [legacyLoop] at hc
  | cons p rest ih =>
    intro c hc
    simp only [legacyLoop] at hc
    split at hc
    · rename_i hguard
      split at hc
      · simp at hc
      · have hne := legacyLoop_ne_nil (some t) [] rest
        rw [List.dropLast_cons_of_ne_nil hne] at hc
        rcases List.mem_cons.mp hc with h | h
        · subst h
          simp only [gbGuard, Bool.and_eq_true, decide_eq_true_eq] at hguard
          exact hguard.2
        · exact ih [] c h
    · exact ih (acc ++ [p]) c hc

/-- Reaching the threshold strictly before the sources run out forces the
legacy loop to emit at least two output files. -/
theorem legacyLoop_multi (t : Nat) (ht : t ≠ 0) (acc l : List Nat)
    (hreach : ∃ k, 0 < k ∧ k < l.length ∧ t ≤ acc.sum + (l.take k).sum) :
    1 < (legacyLoop (some t) acc l).length := by
  induction l generalizing acc with
  | nil =>
    obtain ⟨k, hk0, hklen, _⟩ := hreach
    simp at hklen
  | cons p rest ih =>
    obtain ⟨k, hk0, hklen, hksum⟩ := hreach
    simp only [legacyLoop]
    split
    · have hrest : rest ≠ [] := by
        intro h
        subst h
        simp at hklen
        omega
      rw [if_neg (by simpa using hrest)]
      have := legacyLoop_ne_nil (some t) [] rest
      simp only [List.length_cons]
      have : 0 < (legacyLoop (some t) [] rest).length :=
        List.length_pos.mpr this
      omega
    · rename_i hguard
      have hsum : (acc ++ [p]).sum < t := by
        simp only [gbGuard, Bool.and_eq_true, decide_eq_true_eq] at hguard
        omega
      apply ih (acc ++ [p])
      rcases Nat.lt_or_ge 1 k with hk1 | hk1
      · refine ⟨k - 1, by omega, by simp at hklen; omega, ?_⟩
        have htake : ((p :: rest).take k).sum = p + (rest.take (k - 1)).sum := by
          cases k with
          | zero => omega
          | succ k' => simp [List.take_succ_cons]
        simp only [List.sum_append, List.sum_cons, List.sum_nil] at *
        omega
      · exfalso
        have hk : k = 1 := by omega
        subst hk
        simp only [List.take_succ_cons, List.take_zero, List.sum_cons,
          List.sum_nil, List.sum_append] at hksum hsum
        omega

/- ------------------------------------------------------------------ -/
/- Claim theorems.                                                     -/
/- ------------------------------------------------------------------ -/

/-- C1 counterexample: on a descriptor with 7 page-level frames and 2
planes — a fractional page/plane ratio — the `meta` property's adjustment
returns a metadata record with the truncated count 3 instead of raising an
error, and the returned count times the plane count does not recover the
page count. -/
theorem metaAdjust_fractional_counterexample :
    metaAdjustNumFrames 7 2 = Except.ok 3 ∧ 7 % 2 ≠ 0 ∧ 3 * 2 ≠ 7 :=
  ⟨rfl, by decide, by decide⟩

/-- C1 (amended): for a nonzero plane count, the adjusted timepoint count
is the floor of the page/plane ratio — extraction never fails on a
fractional ratio, it silently truncates; when the plane count divides the
page count exactly, `num_timepoints * num_planes = num_pages` holds. -/
theorem metaAdjust_floor (rawNumFrames numPlanes : Nat)
    (h : numPlanes ≠ 0) :
    metaAdjustNumFrames rawNumFrames numPlanes =
        Except.ok (rawNumFrames / numPlanes) ∧
      (numPlanes ∣ rawNumFrames →
        rawNumFrames / numPlanes * numPlanes = rawNumFrames) := by
  refine ⟨by simp [metaAdjustNumFrames, h], fun hd => Nat.div_mul_cancel hd⟩

/-- C1 witness: the amended theorem instantiated at 6 pages over 2
planes. -/
theorem metaAdjust_floor_witness :
    metaAdjustNumFrames 6 2 = Except.ok (6 / 2) ∧
      (2 ∣ 6 → 6 / 2 * 2 = 6) :=
  metaAdjust_floor 6 2 (by decide)

/-- C2: for well-formed metadata and a (plane, channel) pair present in
it, the page-index calculator returns exactly `num_frames` (timepoint
count) entries; the entry for timepoint `t` is
`t * (num_channels * num_planes) + plane_pos * num_channels +
channel_pos`, with the positions taken in `plane_indices` and `channels`;
the list is strictly increasing; and every entry is below the total page
count `num_frames * num_planes * num_channels`. -/
theorem pageIndices_spec (m : ScanMeta) (plane_idx channel : Int)
    (hwf : m.WF) (hp : plane_idx ∈ m.plane_indices)
    (hc : channel ∈ m.channels) :
    (pageIndices m plane_idx channel).length = m.num_frames ∧
    (∀ t, t < m.num_frames →
      (pageIndices m plane_idx channel)[t]? =
        some (t * (m.num_channels * m.num_planes) +
          m.plane_indices.indexOf plane_idx * m.num_channels +
          m.channels.indexOf channel)) ∧
    (pageIndices m plane_idx channel).Pairwise (· < ·) ∧
    (∀ x ∈ pageIndices m plane_idx channel, x < numPages m) := by
  obtain ⟨hwc, hwp, _, _⟩ := hwf
  have hnc : 0 < m.num_channels := by
    rw [hwc]
    exact List.length_pos.mpr (List.ne_nil_of_mem hc)
  have hnp : 0 < m.num_planes := by
    rw [hwp]
    exact List.length_pos.mpr (List.ne_nil_of_mem hp)
  have hci : m.channels.indexOf channel < m.num_channels := by
    rw [hwc]; exact List.indexOf_lt_length.mpr hc
  have hpi : m.plane_indices.indexOf plane_idx < m.num_planes := by
    rw [hwp]; exact List.indexOf_lt_length.mpr hp
  refine ⟨by simp [pageIndices], ?_, ?_, ?_⟩
  · intro t ht
    simp [pageIndices, List.getElem?_range ht]
  · unfold pageIndices
    refine List.Pairwise.map _ ?_ (List.pairwise_lt_range m.num_frames)
    intro a b hab
    have hstep : 0 < m.num_channels * m.num_planes :=
      Nat.mul_pos hnc hnp
    have := (Nat.mul_lt_mul_right hstep).mpr hab
    omega
  · intro x hx
    simp only [pageIndices, List.mem_map, List.mem_range] at hx
    obtain ⟨t, ht, rfl⟩ := hx
    unfold numPages
    set nc := m.num_channels
    set np := m.num_planes
    set si := m.plane_indices.indexOf plane_idx
    set ci := m.channels.indexOf channel
    have h1 : si * nc + ci < np * nc := by
      calc si * nc + ci < si * nc + nc := by omega
        _ = (si + 1) * nc := by ring
        _ ≤ np * nc := Nat.mul_le_mul_right nc hpi
    calc t * (nc * np) + si * nc + ci
        < t * (nc * np) + np * nc := by omega
      _ = (t + 1) * (np * nc) := by ring
      _ ≤ m.num_frames * (np * nc) := Nat.mul_le_mul_right _ ht
      _ = m.num_frames * np * nc := by ring

/-- C2 witness: the theorem instantiated at the spec's section 8
scenario (2 channels, 3 planes, 10 timepoints), plane 1, channel 0. -/
theorem pageIndices_spec_witness :
    (pageIndices scenarioMeta 1 0).length = scenarioMeta.num_frames ∧
    (∀ t, t < scenarioMeta.num_frames →
      (pageIndices scenarioMeta 1 0)[t]? =
        some (t * (scenarioMeta.num_channels * scenarioMeta.num_planes) +
          scenarioMeta.plane_indices.indexOf 1 * scenarioMeta.num_channels +
          scenarioMeta.channels.indexOf 0)) ∧
    (pageIndices scenarioMeta 1 0).Pairwise (· < ·) ∧
    (∀ x ∈ pageIndices scenarioMeta 1 0, x < numPages scenarioMeta) :=
  pageIndices_spec scenarioMeta 1 0 (by decide) (by decide) (by decide)

/-- C3: evaluation of the multi-page branch at a request resolving to two
source files (the model records one write event per source file, as the
write block at lines 166-176 sits inside the per-file loop): two output
files are produced, and the first is written when only one of the two
source files has been consumed — contradicting the claim that exactly one
output file is produced only after all source files are consumed. -/
theorem multipageWrites_two_files :
    multipageWrites [30, 30] = [⟨1, 0⟩, ⟨2, 1⟩] ∧
      (multipageWrites [30, 30]).length = 2 :=
  ⟨rfl, rfl⟩

/-- C4: when an output matching the stem exists and overwrite is not
requested, the call returns the existing file(s) and performs no write and
no deletion; conversely, whenever the delete-then-regenerate path is
taken, either overwrite was requested or no matching output existed (in
which case the unlinked set is empty). -/
theorem bigtiffPrologue_idempotent (existing : List String)
    (overwrite : Bool) (gb_per_file : Option Nat) :
    (existing ≠ [] → bigtiffPrologue existing false gb_per_file =
        .returnExisting (earlyReturnResult existing gb_per_file)) ∧
    (∀ deleted, bigtiffPrologue existing overwrite gb_per_file =
        .deleteThenRegenerate deleted →
      deleted = existing ∧ (overwrite = true ∨ existing = [])) := by
  constructor
  · intro hne
    have : existing.length ≠ 0 :=
      Nat.pos_iff_ne_zero.mp (List.length_pos.mpr hne)
    simp [bigtiffPrologue, this]
  · intro deleted hdel
    unfold bigtiffPrologue at hdel
    split at hdel
    · cases hdel
    · rename_i hcond
      refine ⟨by cases hdel; rfl, ?_⟩
      push_neg at hcond
      rcases Decidable.em (existing.length ≠ 0) with h0 | h0
      · exact Or.inl (by simpa using hcond h0)
      · exact Or.inr (by simpa using List.eq_nil_of_length_eq_zero (by omega))

/-- C4 witness: the theorem instantiated at a matching output `a.tif`
with overwrite off, and at the regenerate path with overwrite on. -/
theorem bigtiffPrologue_idempotent_witness :
    bigtiffPrologue ["a.tif"] false none =
        .returnExisting (earlyReturnResult ["a.tif"] none) ∧
      (["a.tif"] = ["a.tif"] ∧ (true = true ∨ (["a.tif"] : List String) = [])) :=
  ⟨(bigtiffPrologue_idempotent ["a.tif"] false none).1 (by simp),
   (bigtiffPrologue_idempotent ["a.tif"] true none).2 ["a.tif"] (by rfl)⟩

/-- C5: the plane/channel resolution of `get_prairieview_filenames` —
with the parameter omitted, a sole plane (channel) is defaulted to and
several planes (channels) raise the ambiguous-selection error; a supplied
plane (channel) absent from the metadata raises the invalid-selection
error; both errors propagate through the combined resolver in source
order. -/
theorem resolveSelection_spec (m : ScanMeta) (hwf : m.WF) :
    (m.num_planes = 1 →
      ∃ p, m.plane_indices = [p] ∧ resolvePlane m none = .ok p) ∧
    (1 < m.num_planes → resolvePlane m none = .error .ambiguousPlane) ∧
    (∀ p : Int, p ∉ m.plane_indices →
      resolvePlane m (some p) = .error .invalidPlane) ∧
    (m.num_channels = 1 →
      ∃ c, m.channels = [c] ∧ resolveChannel m none = .ok c) ∧
    (1 < m.num_channels → resolveChannel m none = .error .ambiguousChannel) ∧
    (∀ c : Int, c ∉ m.channels →
      resolveChannel m (some c) = .error .invalidChannel) ∧
    (∀ plane_idx e, resolvePlane m plane_idx = .error e →
      ∀ channel, resolveSelection m plane_idx channel = .error e) ∧
    (∀ plane_idx p, resolvePlane m plane_idx = .ok p →
      ∀ channel e, resolveChannel m channel = .error e →
        resolveSelection m plane_idx channel = .error e) := by
  obtain ⟨hwc, hwp, _, _⟩ := hwf
  refine ⟨?_, ?_, ?_, ?_, ?_, ?_, ?_, ?_⟩
  · intro h1
    rw [h1] at hwp
    obtain ⟨p, hp⟩ := List.length_eq_one.mp hwp.symm
    exact ⟨p, hp, by simp [resolvePlane, h1, hp]⟩
  · intro h1
    simp [resolvePlane, h1]
  · intro p hp
    simp [resolvePlane, hp]
  · intro h1
    rw [h1] at hwc
    obtain ⟨c, hc⟩ := List.length_eq_one.mp hwc.symm
    exact ⟨c, hc, by simp [resolveChannel, h1, hc]⟩
  · intro h1
    simp [resolveChannel, h1]
  · intro c hc
    simp [resolveChannel, hc]
  · intro plane_idx e he channel
    simp only [resolveSelection, he]
    rfl
  · intro plane_idx p hp channel e he
    simp only [resolveSelection, hp, he]
    rfl

/-- C5 witness: defaulting at the single-plane, single-channel instance;
the ambiguous and invalid errors at the multi-plane scenario instance,
with propagation through the combined resolver. -/
theorem resolveSelection_spec_witness :
    (∃ p, soloMeta.plane_indices = [p] ∧ resolvePlane soloMeta none = .ok p) ∧
    (∃ c, soloMeta.channels = [c] ∧ resolveChannel soloMeta none = .ok c) ∧
    resolvePlane scenarioMeta none = .error .ambiguousPlane ∧
    resolvePlane scenarioMeta (some 7) = .error .invalidPlane ∧
    resolveChannel scenarioMeta (some 7) = .error .invalidChannel ∧
    resolveSelection scenarioMeta none (some 0) = .error .ambiguousPlane :=
  ⟨(resolveSelection_spec soloMeta (by decide)).1 rfl,
   (resolveSelection_spec soloMeta (by decide)).2.2.2.1 rfl,
   (resolveSelection_spec scenarioMeta (by decide)).2.1 (by decide),
   (resolveSelection_spec scenarioMeta (by decide)).2.2.1 7 (by decide),
   (resolveSelection_spec scenarioMeta (by decide)).2.2.2.2.2.1 7 (by decide),
   (resolveSelection_spec scenarioMeta (by decide)).2.2.2.2.2.2.1 none
     .ambiguousPlane ((resolveSelection_spec scenarioMeta (by decide)).2.1
       (by decide)) (some 0)⟩

/-- C6 counterexample: with two distinct filenames arriving in descending
order (modelled as 1 then 0, standing for "b.tif" before "a.tif"),
`np.unique` returns them sorted ascending, not in first-seen order. -/
theorem npUnique_order_counterexample :
    npUnique [1, 0] = [0, 1] ∧ firstSeenDedup [1, 0] = [1, 0] ∧
      npUnique ([1, 0] : List Nat) ≠ firstSeenDedup [1, 0] := by
  refine ⟨by decide, by decide, by decide⟩

/-- C6 (amended): the resolver's filename list has duplicates removed and
is returned in ascending sorted order (the order `numpy.unique` produces),
with exactly the names that occur among the frame-file records — not in
first-seen order. -/
theorem npUnique_sorted_spec {α : Type} [LinearOrder α] (names : List α) :
    (npUnique names).Nodup ∧ List.Sorted (· ≤ ·) (npUnique names) ∧
      ∀ x, x ∈ npUnique names ↔ x ∈ names := by
  refine ⟨List.nodup_dedup _, ?_, ?_⟩
  · exact (List.sorted_insertionSort (· ≤ ·) names).sublist
      (List.dedup_sublist _)
  · intro x
    rw [npUnique, List.mem_dedup]
    exact (List.perm_insertionSort (· ≤ ·) names).mem_iff

/-- C6 witness: the amended theorem instantiated at the counterexample
input. -/
theorem npUnique_sorted_spec_witness :
    (npUnique [1, 0]).Nodup ∧ List.Sorted (· ≤ ·) (npUnique [1, 0]) ∧
      ∀ x, x ∈ npUnique [1, 0] ↔ x ∈ ([1, 0] : List Nat) :=
  npUnique_sorted_spec [1, 0]

/-- C7 counterexample: legacy layout, two pages of 6 units, threshold 10 —
the threshold (10) is smaller than the total output size (12), yet exactly
one output file is produced, because the threshold is only crossed by the
final page write, after which no source files remain. -/
theorem legacySplit_threshold_counterexample :
    legacySplit (some 10) [6, 6] = [[6, 6]] ∧
      (legacySplit (some 10) [6, 6]).length = 1 ∧
      10 < ([6, 6] : List Nat).sum := by
  refine ⟨by decide, by decide, by decide⟩

/-- C7 (amended): with a nonzero byte threshold in the legacy layout, the
output files drain every source page in order; every output file is
nonempty; in every output file the pages before the last sum to less than
the threshold (the split check runs after each page write, not before),
so each file exceeds the threshold by less than one page's worth; every
output file except the last was closed because its size reached the
threshold; and more than one output file is produced whenever the
threshold is reached strictly before the last source file — though not
necessarily whenever the threshold is merely smaller than the total
output size. -/
theorem legacySplit_spec (t : Nat) (pages : List Nat) (ht : t ≠ 0) :
    (legacySplit (some t) pages).flatten = pages ∧
    (∀ c ∈ legacySplit (some t) pages, c ≠ []) ∧
    (∀ c ∈ legacySplit (some t) pages, c.dropLast.sum < t) ∧
    (∀ c ∈ legacySplit (some t) pages, ∀ h : c ≠ [],
      c.sum < t + c.getLast h) ∧
    (∀ c ∈ (legacySplit (some t) pages).dropLast, t ≤ c.sum) ∧
    ((∃ k, 0 < k ∧ k < pages.length ∧ t ≤ (pages.take k).sum) →
      1 < (legacySplit (some t) pages).length) := by
  have hlast : ∀ l : List (List Nat), (∀ c ∈ l, c.dropLast.sum < t) →
      ∀ c ∈ l, ∀ h : c ≠ [], c.sum < t + c.getLast h := by
    intro l hl c hc h
    have hd := hl c hc
    have hsplit := List.dropLast_append_getLast h
    have hsum : c.sum = c.dropLast.sum + c.getLast h := by
      conv_lhs => rw [← hsplit]
      simp
    omega
  cases pages with
  | nil =>
    refine ⟨by simp [legacySplit], by simp [legacySplit],
      by simp [legacySplit], by simp [legacySplit],
      by simp [legacySplit], ?_⟩
    rintro ⟨k, hk0, hklen, _⟩
    simp at hklen
  | cons p rest =>
    have hzero : ([] : List Nat).sum < t := by
      simp
      omega
    have h1 := legacyLoop_flatten (some t) [] (p :: rest)
    have h2 := legacyLoop_mem_ne_nil (some t) [] (p :: rest) (by simp)
    have h3 := legacyLoop_dropLast_sum t [] (p :: rest) hzero
    have h5 := legacyLoop_closed_ge t [] (p :: rest)
    refine ⟨by simpa [legacySplit] using h1, h2, h3,
      hlast _ h3, h5, ?_⟩
    intro hreach
    exact legacyLoop_multi t ht [] (p :: rest) (by simpa using hreach)

/-- C7 witness: the amended theorem instantiated at three pages of 4
units and threshold 5 (split after the second page, two output files). -/
theorem legacySplit_spec_witness :
    (legacySplit (some 5) [4, 4, 4]).flatten = [4, 4, 4] ∧
    (∀ c ∈ legacySplit (some 5) [4, 4, 4], c ≠ []) ∧
    (∀ c ∈ legacySplit (some 5) [4, 4, 4], c.dropLast.sum < 5) ∧
    (∀ c ∈ legacySplit (some 5) [4, 4, 4], ∀ h : c ≠ [],
      c.sum < 5 + c.getLast h) ∧
    (∀ c ∈ (legacySplit (some 5) [4, 4, 4]).dropLast, 5 ≤ c.sum) ∧
    ((∃ k, 0 < k ∧ k < ([4, 4, 4] : List Nat).length ∧
        5 ≤ (([4, 4, 4] : List Nat).take k).sum) →
      1 < (legacySplit (some 5) [4, 4, 4]).length) :=
  legacySplit_spec 5 [4, 4, 4] (by decide)

/-- C8: in the multi-controller branch of the Z-depth resolution, if the
per-controller variation flags count exactly one varying controller, that
controller's value list is selected and returned; with zero or more than
one varying controller, extraction fails with the assertion message. -/
theorem selectZController_spec (z_repeats : List (List Int))
    (_hmulti : 1 < z_repeats.length) :
    ((z_repeats.map controllerVaries).count true = 1 →
      ∃ zf, selectZController z_repeats = .ok zf ∧ zf ∈ z_repeats ∧
        controllerVaries zf = true) ∧
    ((z_repeats.map controllerVaries).count true ≠ 1 →
      selectZController z_repeats =
        .error "Multiple controllers changing z depth is not supported") := by
  constructor
  · intro h1
    have htrue : true ∈ z_repeats.map controllerVaries :=
      List.count_pos_iff.mp (by omega)
    have hidx : (z_repeats.map controllerVaries).indexOf true <
        (z_repeats.map controllerVaries).length :=
      List.indexOf_lt_length.mpr htrue
    have hiz : (z_repeats.map controllerVaries).indexOf true <
        z_repeats.length := by
      simpa using hidx
    refine ⟨z_repeats.get ⟨_, hiz⟩, ?_, List.get_mem _ _ _, ?_⟩
    · simp only [selectZController, h1, if_pos]
      congr 1
      rw [List.getD_eq_getElem?_getD, List.getElem?_eq_getElem hiz]
      simp [List.get_eq_getElem]
    · have hv := List.indexOf_get hidx
      rw [List.get_eq_getElem, List.getElem_map] at hv
      simpa [List.get_eq_getElem] using hv
  · intro h1
    simp [selectZController, h1]

/-- C8 witness: two controllers, only the second varying — it is
selected; and two non-varying controllers — extraction fails. -/
theorem selectZController_spec_witness :
    (∃ zf, selectZController [[1, 1], [1, 2]] = .ok zf ∧
      zf ∈ [[1, 1], [1, 2]] ∧ controllerVaries zf = true) ∧
    selectZController [[1, 1], [2, 2]] =
      .error "Multiple controllers changing z depth is not supported" :=
  ⟨(selectZController_spec [[1, 1], [1, 2]] (by decide)).1 (by decide),
   (selectZController_spec [[1, 1], [2, 2]] (by decide)).2 (by decide)⟩

/-- C9 counterexample: a directory whose only XML file carries the
scan-sequence marker as an element with zero children — the marker is
present (`seq ≠ none`), yet the constructor's truthiness test
(`if xml_root.find(".//Sequence"):`) skips the file and construction
falls through to the not-found error. -/
theorem findMetaXml_empty_seq_counterexample :
    findMetaXml [⟨some 0⟩] = none ∧ (⟨some 0⟩ : XmlDoc).seq ≠ none := by
  refine ⟨by decide, by decide⟩

/-- C9 (amended): loader construction fails exactly when no XML file in
the directory has a `Sequence` element with at least one child (a truthy
marker); when it succeeds it binds to such a file — in particular a file
that does carry the marker. -/
theorem findMetaXml_spec (files : List XmlDoc) :
    (findMetaXml files = none ↔ ∀ d ∈ files, seqTruthy d = false) ∧
    (∀ d, findMetaXml files = some d →
      seqTruthy d = true ∧ d ∈ files ∧ ∃ k, d.seq = some k ∧ 0 < k) := by
  constructor
  · rw [findMetaXml, List.find?_eq_none]
    constructor
    · intro h d hd
      simpa using h d hd
    · intro h d hd
      simp [h d hd]
  · intro d hd
    have hp := List.find?_some hd
    have hm := List.mem_of_find?_eq_some hd
    refine ⟨hp, hm, ?_⟩
    unfold seqTruthy at hp
    match hseq : d.seq with
    | none => rw [hseq] at hp; cases hp
    | some k =>
      rw [hseq] at hp
      exact ⟨k, rfl, by simpa using hp⟩

/-- C9 witness: the amended theorem applied to a directory whose XML file
has a Sequence element with two children. -/
theorem findMetaXml_spec_witness :
    seqTruthy ⟨some 2⟩ = true ∧ (⟨some 2⟩ : XmlDoc) ∈ [(⟨some 2⟩ : XmlDoc)] ∧
      ∃ k, (⟨some 2⟩ : XmlDoc).seq = some k ∧ 0 < k :=
  (findMetaXml_spec [⟨some 2⟩]).2 ⟨some 2⟩ rfl

/-- C10: `write_single_bigtiff` returns a lone path exactly when one
output file was produced and a list when more were; in the
pre-existing-output fast path it returns the first matching file when no
split threshold is given and the full matching list otherwise. -/
theorem tiffResultShape_spec :
    (∀ f : String, finalizeResult [f] = .single f) ∧
    (∀ fs : List String, fs.length ≠ 1 → finalizeResult fs = .multiple fs) ∧
    (∀ (f : String) (rest : List String),
      earlyReturnResult (f :: rest) none = .single f) ∧
    (∀ (ex : List String) (t : Nat),
      earlyReturnResult ex (some t) = .multiple ex) := by
  refine ⟨fun f => rfl, ?_, fun f rest => rfl, fun ex t => rfl⟩
  intro fs h
  match fs with
  | [] => rfl
  | [f] => simp at h
  | f :: g :: rest => rfl

/-- C10 witness: the theorem instantiated at one and at two output
files, and at the fast path with and without a threshold. -/
theorem tiffResultShape_spec_witness :
    finalizeResult ["a"] = .single "a" ∧
      finalizeResult ["a", "b"] = .multiple ["a", "b"] ∧
      earlyReturnResult ["a"] none = .single "a" ∧
      earlyReturnResult ["a"] (some 1) = .multiple ["a"] :=
  ⟨tiffResultShape_spec.1 "a",
   tiffResultShape_spec.2.1 ["a", "b"] (by decide),
   tiffResultShape_spec.2.2.1 "a" [],
   tiffResultShape_spec.2.2.2 ["a"] 1⟩
